import Mathlib

/-!
Verification development for the APROFAM ClinNote repository: a shallow
embedding of the clinical-dictation text-classification core
(`api/clinote/analyze.js` and the client helpers in `src/App.jsx`),
together with theorems settling the specification's testable properties.

Text is modelled as `List Char`.  JavaScript regular expressions are
modelled by a small backtracking matcher (`PM`) whose alternatives are
explored in the same order as a JS engine (leftmost position first,
alternation in source order, greedy quantifiers longest-first), so the
first result of the alternative list coincides with the JS match.
-/

set_option maxRecDepth 20000

abbrev Str := List Char

/-- Char list of a string literal. -/
def str (s : String) : Str := s.data

/-- JS whitespace class `\s`, restricted to the ASCII whitespace that occurs
in this codebase (space, tab, newline, carriage return). -/
def isWSCh (c : Char) : Bool := c = ' ' || c = '\t' || c = '\n' || c = '\r'

/-- JS digit class `\d`. -/
def isDigitCh (c : Char) : Bool := '0' ≤ c && c ≤ '9'

/-- JS word class `\w` = `[A-Za-z0-9_]` (used by `\b`); accented letters are
not word characters in JS. -/
def isWordCh (c : Char) : Bool :=
  ('a' ≤ c && c ≤ 'z') || ('A' ≤ c && c ≤ 'Z') || ('0' ≤ c && c ≤ '9') || c = '_'

/-- `String.prototype.toLowerCase`, restricted to the ASCII and Spanish
letters occurring in this codebase. -/
def jsToLower (c : Char) : Char :=
  match c with
  | 'Á' => 'á'
  | 'É' => 'é'
  | 'Í' => 'í'
  | 'Ó' => 'ó'
  | 'Ú' => 'ú'
  | 'Ü' => 'ü'
  | 'Ñ' => 'ñ'
  | _ => c.toLower

def lowerStr (s : Str) : Str := s.map jsToLower

/-- One step of `String.prototype.replace(/\s+/g, " ")`: every maximal run of
whitespace becomes a single space. -/
def collapseWs : Str → Str
  | [] => []
  | [c] => if isWSCh c then [' '] else [c]
  | c :: d :: rest =>
    if isWSCh c then
      if isWSCh d then collapseWs (d :: rest) else ' ' :: collapseWs (d :: rest)
    else c :: collapseWs (d :: rest)

/-- `String.prototype.trimEnd`: drop the trailing whitespace run. -/
def trimEndWs : Str → Str
  | [] => []
  | c :: rest =>
    match trimEndWs rest with
    | [] => if isWSCh c then [] else [c]
    | r :: rs => c :: r :: rs

/-- `String.prototype.trim`. -/
def jsTrim (s : Str) : Str := trimEndWs (s.dropWhile (fun c => isWSCh c))

/-- `safeTrim` from `api/clinote/analyze.js` and `src/App.jsx`:
`String(s || "").replace(/\s+/g, " ").trim()`. -/
def safeTrim (s : Str) : Str := jsTrim (collapseWs s)

/-- `String.prototype.includes`: substring test (needle, haystack). -/
def isSubstr (needle : Str) : Str → Bool
  | [] => needle.isPrefixOf []
  | c :: rest => needle.isPrefixOf (c :: rest) || isSubstr needle rest

/-- `String.prototype.indexOf`, returning `none` for `-1`. -/
def indexOfSubAux (needle : Str) : Str → Nat → Option Nat
  | [], i => if needle.isPrefixOf [] then some i else none
  | c :: rest, i =>
    if needle.isPrefixOf (c :: rest) then some i else indexOfSubAux needle rest (i + 1)

def indexOfSub (hay needle : Str) : Option Nat := indexOfSubAux needle hay 0

/-! ## A tiny backtracking regex engine

A matcher takes the captures accumulated so far, the previous input
character (for `\b`), and the remaining input; it returns the list of
possible outcomes in JS backtracking priority order. -/

abbrev Caps := List Str

abbrev PM := Caps → Option Char → Str → List (Caps × Option Char × Str)

def pmEps : PM := fun a pc s => [(a, pc, s)]

def pmFail : PM := fun _ _ _ => []

def pmSeq (p q : PM) : PM := fun a pc s =>
  (p a pc s).flatMap (fun r => q r.1 r.2.1 r.2.2)

def pmSeqs (ps : List PM) : PM := ps.foldr pmSeq pmEps

def pmAlt (p q : PM) : PM := fun a pc s => p a pc s ++ q a pc s

def pmAlts (ps : List PM) : PM := ps.foldr pmAlt pmFail

/-- Greedy `(...)?`. -/
def pmOpt (p : PM) : PM := fun a pc s => p a pc s ++ [(a, pc, s)]

/-- Case-insensitive literal (patterns are written in lowercase). -/
def takeLit : Str → Option Char → Str → Option (Option Char × Str)
  | [], pc, s => some (pc, s)
  | _ :: _, _, [] => none
  | w :: ws, _, c :: s => if jsToLower c = jsToLower w then takeLit ws (some c) s else none

def pmLit (w : String) : PM := fun a pc s =>
  match takeLit w.data pc s with
  | some (pc', s') => [(a, pc', s')]
  | none => []

/-- Case-insensitive single-character class such as `[oó]`. -/
def pmCls (cs : String) : PM := fun a pc s =>
  match pc, s with
  | _, [] => []
  | _, c :: rest => if cs.data.contains (jsToLower c) then [(a, some c, rest)] else []

/-- One character of a Boolean class. -/
def pmChr (f : Char → Bool) : PM := fun a pc s =>
  match pc, s with
  | _, [] => []
  | _, c :: rest => if f c then [(a, some c, rest)] else []

/-- All ways to consume a prefix of the leading `f`-run, longest first. -/
def runSplits (f : Char → Bool) : Option Char → Str → List (Option Char × Str)
  | pc, [] => [(pc, [])]
  | pc, c :: rest =>
    if f c then runSplits f (some c) rest ++ [(pc, c :: rest)] else [(pc, c :: rest)]

/-- Greedy `X*` over a character class. -/
def pmStar (f : Char → Bool) : PM := fun a pc s =>
  (runSplits f pc s).map (fun r => (a, r.1, r.2))

/-- Greedy `X+` over a character class. -/
def pmPlus (f : Char → Bool) : PM := fun a pc s =>
  match pc, s with
  | _, [] => []
  | _, c :: rest =>
    if f c then (runSplits f (some c) rest).map (fun r => (a, r.1, r.2)) else []

/-- Greedy `X{m,n}` over a character class. -/
def pmRep (f : Char → Bool) (m n : Nat) : PM := fun a pc s =>
  (runSplits f pc s).filterMap (fun r =>
    let len := s.length - r.2.length
    if m ≤ len ∧ len ≤ n then some (a, r.1, r.2) else none)

/-- Word boundary `\b`. -/
def pmWordB : PM := fun a pc s =>
  let before := match pc with | none => false | some c => isWordCh c
  let after := match s.head? with | none => false | some c => isWordCh c
  if before ≠ after then [(a, pc, s)] else []

/-- Capture group around a matcher that itself captures nothing. -/
def pmCap (p : PM) : PM := fun a pc s =>
  (p a pc s).map (fun r => (a ++ [s.take (s.length - r.2.2.length)], r.2.1, r.2.2))

/-- Leftmost search: the JS match of an unanchored regex. -/
def pmSearch (p : PM) : Option Char → Str → Option Caps
  | pc, [] => ((p [] pc []).head?).map (fun r => r.1)
  | pc, c :: rest =>
    match (p [] pc (c :: rest)).head? with
    | some r => some r.1
    | none => pmSearch p (some c) rest

/-- `re.exec(s)` : captures of the leftmost match. -/
def reFind (p : PM) (s : Str) : Option Caps := pmSearch p none s

/-- `re.test(s)`. -/
def reTest (p : PM) (s : Str) : Bool := (reFind p s).isSome

/-- Match anchored at the start (`^...`), as used by the header patterns:
returns the rest of the input after the JS match, if any. -/
def anchoredRest (p : PM) (s : Str) : Option Str :=
  (p [] none s).head?.map (fun r => r.2.2)

/-! ## Data model: the ten Section Keys and the Note State -/

inductive SectionKey where
  | motivo | antecedentes | impresion | signos | diagnostico
  | prescripcion | plan | estudios | referencias | acuerdos
deriving DecidableEq

/-- The fixed key order: insertion order of the `score` object literal in
`bestBucket`, which is `Object.entries` iteration order. -/
def keyOrder : List SectionKey :=
  [.motivo, .antecedentes, .impresion, .signos, .diagnostico,
   .prescripcion, .plan, .estudios, .referencias, .acuerdos]

/-- A `sections` object: accumulated free text per Section Key
(a missing JS key reads as `""`, i.e. `[]`). -/
structure Sections where
  motivo : Str
  antecedentes : Str
  impresion : Str
  signos : Str
  diagnostico : Str
  prescripcion : Str
  plan : Str
  estudios : Str
  referencias : Str
  acuerdos : Str
deriving DecidableEq

def Sections.get (s : Sections) : SectionKey → Str
  | .motivo => s.motivo
  | .antecedentes => s.antecedentes
  | .impresion => s.impresion
  | .signos => s.signos
  | .diagnostico => s.diagnostico
  | .prescripcion => s.prescripcion
  | .plan => s.plan
  | .estudios => s.estudios
  | .referencias => s.referencias
  | .acuerdos => s.acuerdos

def Sections.set (s : Sections) : SectionKey → Str → Sections
  | .motivo, v => { s with motivo := v }
  | .antecedentes, v => { s with antecedentes := v }
  | .impresion, v => { s with impresion := v }
  | .signos, v => { s with signos := v }
  | .diagnostico, v => { s with diagnostico := v }
  | .prescripcion, v => { s with prescripcion := v }
  | .plan, v => { s with plan := v }
  | .estudios, v => { s with estudios := v }
  | .referencias, v => { s with referencias := v }
  | .acuerdos, v => { s with acuerdos := v }

/-- The empty Note State (`DEFAULT_SECTIONS`). -/
def emptySections : Sections := ⟨[], [], [], [], [], [], [], [], [], []⟩

/-! ## Segmenter (`splitSegments`) -/

/-- `split(/[\.\n;]+/g)` modelled as a split at every separator character;
the empty pieces this produces are removed by the subsequent filter,
exactly as in the source. -/
def isSegSep (c : Char) : Bool := c = '.' || c = '\n' || c = ';'

def splitOnSepsAux : Str → Str → List Str
  | acc, [] => [acc.reverse]
  | acc, c :: rest =>
    if isSegSep c then acc.reverse :: splitOnSepsAux [] rest
    else splitOnSepsAux (c :: acc) rest

/-- `splitSegments` from `api/clinote/analyze.js` (and `src/App.jsx`). -/
def splitSegments (text : Str) : List Str :=
  let t := safeTrim text
  if t.isEmpty then []
  else ((splitOnSepsAux [] t).map safeTrim).filter (fun x => !x.isEmpty)

/-! ## Header Detector (`detectSectionHeader`)

Each header regex `^(...)(\s*[:\-])\s*` is transcribed as an anchored
matcher. -/

def headMotivo : PM :=
  pmSeqs [pmLit "motivo",
    pmOpt (pmSeqs [pmPlus isWSCh, pmLit "de", pmOpt (pmSeqs [pmPlus isWSCh, pmLit "la"])]),
    pmPlus isWSCh,
    pmOpt (pmAlts [pmLit "consulta",
      pmSeqs [pmLit "la", pmPlus isWSCh, pmLit "consulta"],
      pmSeqs [pmLit "de", pmPlus isWSCh, pmLit "consulta"]]),
    pmStar isWSCh, pmCls ":-", pmStar isWSCh]

def headAntecedentes : PM :=
  pmSeqs [pmAlts [pmLit "antecedentes",
      pmSeqs [pmLit "historia", pmPlus isWSCh, pmLit "cl", pmCls "ií", pmLit "nica"],
      pmLit "hx"],
    pmStar isWSCh, pmCls ":-", pmStar isWSCh]

def headImpresion : PM :=
  pmSeqs [pmLit "impresi", pmCls "oó", pmLit "n",
    pmOpt (pmSeqs [pmPlus isWSCh, pmLit "cl", pmCls "ií", pmLit "nica"]),
    pmStar isWSCh, pmCls ":-", pmStar isWSCh]

def headSignos : PM :=
  pmSeqs [pmAlts [pmSeqs [pmLit "signos", pmPlus isWSCh, pmLit "vitales"], pmLit "vitales"],
    pmStar isWSCh, pmCls ":-", pmStar isWSCh]

def headDiagnostico : PM :=
  pmSeqs [pmAlts [pmSeqs [pmLit "diagn", pmCls "oó", pmLit "stico"], pmLit "dx"],
    pmStar isWSCh, pmCls ":-", pmStar isWSCh]

def headPrescripcion : PM :=
  pmSeqs [pmAlts [pmSeqs [pmLit "prescripci", pmCls "oó", pmLit "n"],
      pmLit "receta",
      pmSeqs [pmLit "medicaci", pmCls "oó", pmLit "n"]],
    pmStar isWSCh, pmCls ":-", pmStar isWSCh]

def headPlan : PM :=
  pmSeqs [pmAlts [pmLit "plan", pmLit "indicaciones"],
    pmStar isWSCh, pmCls ":-", pmStar isWSCh]

def headEstudios : PM :=
  pmSeqs [pmAlts [pmSeqs [pmLit "estudios", pmPlus isWSCh, pmLit "solicitados"],
      pmLit "laboratorio",
      pmSeqs [pmLit "imagenolog", pmCls "ií", pmLit "a"],
      pmSeqs [pmLit "ex", pmCls "aá", pmLit "menes"]],
    pmStar isWSCh, pmCls ":-", pmStar isWSCh]

def headReferencias : PM :=
  pmSeqs [pmAlts [pmLit "referencias", pmLit "interconsulta", pmLit "referir"],
    pmStar isWSCh, pmCls ":-", pmStar isWSCh]

def headAcuerdos : PM :=
  pmSeqs [pmAlts [pmLit "acuerdos",
      pmSeqs [pmLit "pr", pmCls "oó", pmLit "ximos", pmPlus isWSCh, pmLit "pasos"],
      pmLit "seguimiento"],
    pmStar isWSCh, pmCls ":-", pmStar isWSCh]

/-- The ordered header table of `detectSectionHeader`. -/
def headerTable : List (SectionKey × PM) :=
  [(.motivo, headMotivo), (.antecedentes, headAntecedentes), (.impresion, headImpresion),
   (.signos, headSignos), (.diagnostico, headDiagnostico), (.prescripcion, headPrescripcion),
   (.plan, headPlan), (.estudios, headEstudios), (.referencias, headReferencias),
   (.acuerdos, headAcuerdos)]

def detectSectionHeaderAux : List (SectionKey × PM) → Str → Option (SectionKey × Str)
  | [], _ => none
  | (k, p) :: rest, t =>
    match anchoredRest p t with
    | some r => some (k, safeTrim r)
    | none => detectSectionHeaderAux rest t

/-- `detectSectionHeader` from `api/clinote/analyze.js` (identical in
`src/App.jsx`): first matching header wins; `cleaned` is the re-trimmed
remainder after stripping the matched label. -/
def detectSectionHeader (text : Str) : Option SectionKey × Str :=
  let t := safeTrim text
  if t.isEmpty then (none, [])
  else
    match detectSectionHeaderAux headerTable t with
    | some (k, c) => (some k, c)
    | none => (none, t)

/-! ## Mixed-Content Splitter (`splitIfMixedRxDx`) -/

/-- `/\bdx\b/` (also used with `/i`; the matcher is case-insensitive, which
agrees with both uses). -/
def wordDxP : PM := pmSeqs [pmWordB, pmLit "dx", pmWordB]

/-- `/\b\d+\s*mg\b/`. -/
def mgP : PM := pmSeqs [pmWordB, pmPlus isDigitCh, pmStar isWSCh, pmLit "mg", pmWordB]

/-- `/\bcada\s*\d+\s*(hora|horas)\b/`. -/
def cadaHorasP : PM :=
  pmSeqs [pmWordB, pmLit "cada", pmStar isWSCh, pmPlus isDigitCh, pmStar isWSCh,
    pmAlts [pmLit "hora", pmLit "horas"], pmWordB]

/-- `/\bpor\s*\d+\s*(d[ií]a|d[ií]as|semanas)\b/` (the `bestBucket` variant). -/
def porDiasSemP : PM :=
  pmSeqs [pmWordB, pmLit "por", pmStar isWSCh, pmPlus isDigitCh, pmStar isWSCh,
    pmAlts [pmSeqs [pmLit "d", pmCls "ií", pmLit "a"],
      pmSeqs [pmLit "d", pmCls "ií", pmLit "as"],
      pmLit "semanas"],
    pmWordB]

/-- `/\bpor\s*\d+\s*d[ií]as\b/` (the dosage-check variant in `analyzeDelta`
and `buildQuestions`). -/
def porDiasP : PM :=
  pmSeqs [pmWordB, pmLit "por", pmStar isWSCh, pmPlus isDigitCh, pmStar isWSCh,
    pmLit "d", pmCls "ií", pmLit "as", pmWordB]

/-- `splitIfMixedRxDx` from `api/clinote/analyze.js` (identical in
`src/App.jsx`). -/
def splitIfMixedRxDx (seg : Str) : List Str :=
  let l := lowerStr seg
  let hasDx := isSubstr (str "diagnos") l || reTest wordDxP seg || isSubstr (str "impresi") l
  let hasRx :=
    isSubstr (str "tratamiento") l ||
    isSubstr (str "receta") l ||
    isSubstr (str "prescrib") l ||
    isSubstr (str "se le deja") l ||
    isSubstr (str "se deja") l ||
    isSubstr (str "se indica") l ||
    reTest mgP seg ||
    isSubstr (str "cada ") l ||
    isSubstr (str "por ") l ||
    isSubstr (str "días") l ||
    isSubstr (str "dias") l
  if hasDx && hasRx then
    match indexOfSub l (str "diagnos") with
    | some idx =>
      if idx > 8 then
        ([safeTrim (seg.take idx), safeTrim (seg.drop idx)]).filter (fun x => !x.isEmpty)
      else [seg]
    | none => [seg]
  else [seg]

/-! ## Section Classifier (`bestBucket`) -/

/-- Medication list regex of `bestBucket` (applied with `/i`). -/
def medsP : PM :=
  pmAlts [pmLit "amoxicilina", pmLit "azitromicina", pmLit "ibuprofeno",
    pmLit "paracetamol", pmSeqs [pmLit "acetaminof", pmCls "eé", pmLit "n"],
    pmLit "naproxeno", pmLit "omeprazol", pmLit "metformina", pmLit "loratadina",
    pmLit "salbutamol", pmLit "prednisona"]

/-- `/\bta\b/`. -/
def wordTaP : PM := pmSeqs [pmWordB, pmLit "ta", pmWordB]

/-- `/\bfc\b/`. -/
def wordFcP : PM := pmSeqs [pmWordB, pmLit "fc", pmWordB]

/-- `/\bfr\b/`. -/
def wordFrP : PM := pmSeqs [pmWordB, pmLit "fr", pmWordB]

/-- `/\b\d{2,3}\s*\/\s*\d{2,3}\b/`. -/
def bpNumP : PM :=
  pmSeqs [pmWordB, pmRep isDigitCh 2 3, pmStar isWSCh, pmLit "/", pmStar isWSCh,
    pmRep isDigitCh 2 3, pmWordB]

/-- Diagnosis-evidence test of `bestBucket` (weight 6, key `diagnostico`). -/
def bbDx (s : Str) : Bool :=
  isSubstr (str "diagnos") s || reTest wordDxP s || isSubstr (str "impresi") s ||
  isSubstr (str "compatible con") s || isSubstr (str "se concluye") s

/-- Prescription-phrasing test of `bestBucket` (weight 6, key `prescripcion`). -/
def bbRx (s : Str) : Bool :=
  isSubstr (str "tratamiento") s ||
  isSubstr (str "receta") s ||
  isSubstr (str "prescrib") s ||
  isSubstr (str "se le deja") s ||
  isSubstr (str "se deja") s ||
  isSubstr (str "se indica") s ||
  isSubstr (str "medic") s ||
  reTest mgP s ||
  reTest cadaHorasP s ||
  reTest porDiasSemP s

/-- Vitals test of `bestBucket` (weight 6, key `signos`). -/
def bbSignos (s : Str) : Bool :=
  reTest wordTaP s ||
  isSubstr (str "presión") s ||
  isSubstr (str "mmhg") s ||
  reTest wordFcP s ||
  reTest wordFrP s ||
  isSubstr (str "pulso") s ||
  isSubstr (str "lpm") s ||
  isSubstr (str "rpm") s ||
  isSubstr (str "satur") s ||
  isSubstr (str "sat") s ||
  isSubstr (str "temper") s ||
  reTest bpNumP s

/-- History test of `bestBucket` (weight 4, key `antecedentes`). -/
def bbAntecedentes (s : Str) : Bool :=
  isSubstr (str "anteced") s ||
  isSubstr (str "alerg") s ||
  isSubstr (str "hipert") s ||
  isSubstr (str "diab") s ||
  isSubstr (str "cirug") s ||
  isSubstr (str "asma") s ||
  isSubstr (str "medicación crónica") s ||
  isSubstr (str "medicacion cronica") s

/-- Symptom test of `bestBucket` (weight 4, key `motivo`). -/
def bbMotivo (s : Str) : Bool :=
  isSubstr (str "dolor") s ||
  isSubstr (str "fiebre") s ||
  isSubstr (str "vómit") s ||
  isSubstr (str "vomit") s ||
  isSubstr (str "náuse") s ||
  isSubstr (str "nause") s ||
  isSubstr (str "diarre") s ||
  isSubstr (str "tos") s ||
  isSubstr (str "gargant") s ||
  isSubstr (str "cefale") s ||
  isSubstr (str "mareo") s ||
  isSubstr (str "cansancio") s ||
  isSubstr (str "deshidrat") s ||
  isSubstr (str "desde hace") s ||
  isSubstr (str "durante") s ||
  isSubstr (str "inicio de") s

/-- Studies test of `bestBucket` (weight 4, key `estudios`). -/
def bbEstudios (s : Str) : Bool :=
  isSubstr (str "laboratorio") s || isSubstr (str "rayos") s || isSubstr (str "rx") s ||
  isSubstr (str "ultra") s || isSubstr (str "examen") s || isSubstr (str "prueba") s

/-- Plan test of `bestBucket` (weight 3, key `plan`). -/
def bbPlan (s : Str) : Bool :=
  isSubstr (str "reposo") s || isSubstr (str "hidrat") s || isSubstr (str "control") s ||
  isSubstr (str "seguimiento") s || isSubstr (str "retornar") s || isSubstr (str "cita") s

/-- Referral test of `bestBucket` (weight 3, key `referencias`). -/
def bbReferencias (s : Str) : Bool :=
  isSubstr (str "interconsulta") s || isSubstr (str "refer") s || isSubstr (str "especialista") s

/-- Impression test of `bestBucket` (weight 2, key `impresion`). -/
def bbImpresion (s : Str) : Bool :=
  isSubstr (str "cuadro") s || isSubstr (str "compatible") s ||
  isSubstr (str "sugiere") s || isSubstr (str "probable") s

/-- The score object of `bestBucket`: each rule adds its weight to its key;
the medication-list rule and the prescription-phrasing rule add to
`prescripcion` separately. -/
def scoreOf (seg : Str) : SectionKey → Nat := fun k =>
  let s := lowerStr seg
  match k with
  | .motivo => if bbMotivo s then 4 else 0
  | .antecedentes => if bbAntecedentes s then 4 else 0
  | .impresion => if bbImpresion s then 2 else 0
  | .signos => if bbSignos s then 6 else 0
  | .diagnostico => if bbDx s then 6 else 0
  | .prescripcion => (if reTest medsP seg then 6 else 0) + (if bbRx s then 6 else 0)
  | .plan => if bbPlan s then 3 else 0
  | .estudios => if bbEstudios s then 4 else 0
  | .referencias => if bbReferencias s then 3 else 0
  | .acuerdos => 0

/-- The selection loop of `bestBucket`: `for (const [k, v] of
Object.entries(score)) if (v > bestScore) { bestScore = v; best = k; }`. -/
def selAux (f : SectionKey → Nat) : List SectionKey → SectionKey → Nat → SectionKey × Nat
  | [], b, s => (b, s)
  | k :: ks, b, s => if f k > s then selAux f ks k (f k) else selAux f ks b s

/-- `bestBucket` from `api/clinote/analyze.js` (identical in `src/App.jsx`). -/
def bestBucket (seg : Str) (fallbackKey : SectionKey) : SectionKey :=
  let r := selAux (scoreOf seg) keyOrder fallbackKey 0
  if r.2 > 0 then r.1 else fallbackKey

/-! ## Merge and the analyze pipeline -/

/-- `mergeAppend` from `api/clinote/analyze.js`. -/
def mergeAppend (sections : Sections) (key : SectionKey) (val : Str) : Sections :=
  let v := safeTrim val
  if v.isEmpty then sections
  else sections.set key (safeTrim (sections.get key ++ ' ' :: v))

/-- The dosage test `\b\d+\s*mg\b | \bcada\s*\d+\s*(hora|horas)\b |
\bpor\s*\d+\s*d[ií]as\b` (all `/i`), shared by `analyzeDelta` and
`buildQuestions`. -/
def hasDoseRx (rx : Str) : Bool := reTest mgP rx || reTest cadaHorasP rx || reTest porDiasP rx

/-- `/\bpendiente\b/i`. -/
def hasPendiente (rx : Str) : Bool := reTest (pmSeqs [pmWordB, pmLit "pendiente", pmWordB]) rx

/-- The literal marker appended by `analyzeDelta` to a prescription that
lacks a dosage pattern. -/
def pendienteMarker : Str := str " (dosis/frecuencia/duración: pendiente)"

/-- The post-pass of `analyzeDelta` (its final `if (rx) ...` block): mark a
non-empty prescription without dosage as pending. -/
def pendienteFix (sections : Sections) : Sections :=
  let rx := safeTrim sections.prescripcion
  if rx.isEmpty then sections
  else if !hasDoseRx rx && !hasPendiente rx then
    { sections with prescripcion := safeTrim (rx ++ pendienteMarker) }
  else sections

/-- The per-segment body of `analyzeDelta`'s loop. -/
def analyzeStep (sections : Sections) (seg0 : Str) : Sections :=
  match detectSectionHeader seg0 with
  | (some k, cleaned) => mergeAppend sections k cleaned
  | (none, _) =>
    (splitIfMixedRxDx seg0).foldl
      (fun sec seg => mergeAppend sec (bestBucket seg .impresion) seg) sections

/-- `analyzeDelta` from `api/clinote/analyze.js`. -/
def analyzeDelta (deltaText : Str) (currentSections : Sections) : Sections :=
  pendienteFix ((splitSegments deltaText).foldl analyzeStep currentSections)

/-- The four question strings of `buildQuestions`. -/
def qVitales : Str := str "¿Se registraron signos vitales (TA, FC, FR, T°, SatO2)?"

def qDosis : Str := str "La prescripción no incluye dosis/frecuencia/duración. ¿Podés especificarlas?"

def qDiagnostico : Str := str "¿Cuál es el diagnóstico final?"

def qHidratacion : Str := str "¿Se indicó plan de hidratación y signos de alarma?"

/-- `buildQuestions` from `api/clinote/analyze.js`. -/
def buildQuestions (sections : Sections) : List Str :=
  let dx := safeTrim sections.diagnostico
  let rx := safeTrim sections.prescripcion
  let vit := safeTrim sections.signos
  let mot := safeTrim sections.motivo
  let q :=
    (if !mot.isEmpty && vit.isEmpty then [qVitales] else []) ++
    (if !rx.isEmpty && !hasDoseRx rx then [qDosis] else []) ++
    (if dx.isEmpty then [qDiagnostico] else []) ++
    (if !mot.isEmpty &&
        (isSubstr (str "deshidrat") (lowerStr mot) ||
         isSubstr (str "vómit") (lowerStr mot) ||
         isSubstr (str "vomit") (lowerStr mot)) then [qHidratacion] else [])
  q.take 6

/-- The sections computation of the request handler in
`api/clinote/analyze.js` (lines 242-248): the delta is `.trim()`-ed and, if
empty, the current sections are returned unchanged. -/
def handlerSections (delta_text : Str) (currentSections : Sections) : Sections :=
  let delta := jsTrim delta_text
  if delta.isEmpty then currentSections else analyzeDelta delta currentSections

/-! ## Client-side distribution (`smartDistributeText`, `src/App.jsx` /
part_002) -/

/-- `smartDistributeText(prev, text, fallbackKey)`: returns `{next, did}`.
A JS falsy `fallbackKey` is modelled as `none` (`fallbackKey || "impresion"`). -/
def smartDistributeText (prev : Sections) (text : Str) (fallbackKey : Option SectionKey) :
    Sections × Bool :=
  (splitSegments text).foldl
    (fun acc seg0 =>
      match detectSectionHeader seg0 with
      | (some k, cleaned) =>
        (if cleaned.isEmpty then acc.1
         else acc.1.set k (safeTrim (acc.1.get k ++ ' ' :: cleaned)), true)
      | (none, _) =>
        (splitIfMixedRxDx seg0).foldl
          (fun acc2 seg =>
            let bucket := bestBucket seg (fallbackKey.getD .impresion)
            (acc2.1.set bucket (safeTrim (acc2.1.get bucket ++ ' ' :: seg)), true))
          acc)
    (prev, false)

/-! ## Merge Engine (`mergeText`, `src/App.jsx`) -/

/-- `a.toLowerCase().includes(b.toLowerCase())`. -/
def containsCI (a b : Str) : Bool := isSubstr (lowerStr b) (lowerStr a)

/-- `mergeText` from `src/App.jsx`. -/
def mergeText (oldTxt newTxt : Str) : Str :=
  let a := safeTrim oldTxt
  let b := safeTrim newTxt
  if b.isEmpty then a
  else if a.isEmpty then b
  else if containsCI a b then a
  else jsTrim (a ++ ' ' :: b)

/-! ## Vitals extractor (`extractVitalsFromText`, `src/App.jsx`) -/

/-- `est[aá]\s*en`. -/
def estaEnP : PM := pmSeqs [pmLit "est", pmCls "aá", pmStar isWSCh, pmLit "en"]

/-- `/\btemperatura\b(?:\s*(?:est[aá]\s*en|:))?\s*(\d{2}(?:[.,]\d)?)\b/i`. -/
def mTempP : PM :=
  pmSeqs [pmWordB, pmLit "temperatura", pmWordB,
    pmOpt (pmSeqs [pmStar isWSCh, pmAlts [estaEnP, pmLit ":"]]),
    pmStar isWSCh,
    pmCap (pmSeqs [pmRep isDigitCh 2 2, pmOpt (pmSeqs [pmCls ".,", pmRep isDigitCh 1 1])]),
    pmWordB]

/-- First blood-pressure regex:
`/\bpresi[oó]n\b(?:\s*(?:arterial)?)?(?:\s*(?:est[aá]\s*en|:))?\s*(\d{2,3})\s*(?:\/|\s)\s*(\d{2,3})\b/i`. -/
def mBP1P : PM :=
  pmSeqs [pmWordB, pmLit "presi", pmCls "oó", pmLit "n", pmWordB,
    pmOpt (pmSeqs [pmStar isWSCh, pmOpt (pmLit "arterial")]),
    pmOpt (pmSeqs [pmStar isWSCh, pmAlts [estaEnP, pmLit ":"]]),
    pmStar isWSCh, pmCap (pmRep isDigitCh 2 3),
    pmStar isWSCh, pmAlts [pmLit "/", pmChr isWSCh], pmStar isWSCh,
    pmCap (pmRep isDigitCh 2 3), pmWordB]

/-- Second blood-pressure regex: `/\b(?:pa|ta)\b\s*(\d{2,3})\s*(?:\/|\s)\s*(\d{2,3})\b/i`. -/
def mBP2P : PM :=
  pmSeqs [pmWordB, pmAlts [pmLit "pa", pmLit "ta"], pmWordB,
    pmStar isWSCh, pmCap (pmRep isDigitCh 2 3),
    pmStar isWSCh, pmAlts [pmLit "/", pmChr isWSCh], pmStar isWSCh,
    pmCap (pmRep isDigitCh 2 3), pmWordB]

/-- `/\b(?:frecuencia\s+card[ií]aca|fc|pulso)\b(?:\s*(?:en|:|est[aá]\s*en))?\s*(\d{2,3})\b/i`. -/
def mFCP : PM :=
  pmSeqs [pmWordB,
    pmAlts [pmSeqs [pmLit "frecuencia", pmPlus isWSCh, pmLit "card", pmCls "ií", pmLit "aca"],
      pmLit "fc", pmLit "pulso"],
    pmWordB,
    pmOpt (pmSeqs [pmStar isWSCh, pmAlts [pmLit "en", pmLit ":", estaEnP]]),
    pmStar isWSCh, pmCap (pmRep isDigitCh 2 3), pmWordB]

/-- `/\b(?:frecuencia\s+respiratoria|fr)\b(?:\s*(?:en|:|est[aá]\s*en))?\s*(\d{1,2})\b/i`. -/
def mFRP : PM :=
  pmSeqs [pmWordB,
    pmAlts [pmSeqs [pmLit "frecuencia", pmPlus isWSCh, pmLit "respiratoria"], pmLit "fr"],
    pmWordB,
    pmOpt (pmSeqs [pmStar isWSCh, pmAlts [pmLit "en", pmLit ":", estaEnP]]),
    pmStar isWSCh, pmCap (pmRep isDigitCh 1 2), pmWordB]

/-- `/\b(?:sat(?:uraci[oó]n)?\s*o2|spo2)\b(?:\s*(?:en|:|est[aá]\s*en))?\s*(\d{2,3})\b/i`. -/
def mSatP : PM :=
  pmSeqs [pmWordB,
    pmAlts [pmSeqs [pmLit "sat", pmOpt (pmSeqs [pmLit "uraci", pmCls "oó", pmLit "n"]),
        pmStar isWSCh, pmLit "o2"],
      pmLit "spo2"],
    pmWordB,
    pmOpt (pmSeqs [pmStar isWSCh, pmAlts [pmLit "en", pmLit ":", estaEnP]]),
    pmStar isWSCh, pmCap (pmRep isDigitCh 2 3), pmWordB]

/-- `String.prototype.replace(",", ".")` on the captured value (first
occurrence, as in JS). -/
def replaceFirstComma : Str → Str
  | [] => []
  | c :: rest => if c = ',' then '.' :: rest else c :: replaceFirstComma rest

/-- `Array.prototype.join(sep)`. -/
def joinSep (sep : Str) : List Str → Str
  | [] => []
  | [x] => x
  | x :: y :: rest => x ++ sep ++ joinSep sep (y :: rest)

/-- `extractVitalsFromText` from `src/App.jsx`: pushes the tagged entries in
source order and joins them with `" · "`; returns `""` when nothing
matched. -/
def extractVitalsFromText (text : Str) : Str :=
  let eTemp := (reFind mTempP text).map
    (fun caps => str "Temp: " ++ replaceFirstComma (caps.getD 0 []) ++ str "°C")
  let mBP : Option Caps :=
    match reFind mBP1P text with
    | some caps => some caps
    | none => reFind mBP2P text
  let eBP := mBP.map
    (fun caps => str "PA: " ++ caps.getD 0 [] ++ str "/" ++ caps.getD 1 [])
  let eFC := (reFind mFCP text).map (fun caps => str "FC: " ++ caps.getD 0 [])
  let eFR := (reFind mFRP text).map (fun caps => str "FR: " ++ caps.getD 0 [])
  let eSat := (reFind mSatP text).map (fun caps => str "SatO2: " ++ caps.getD 0 [] ++ str "%")
  let out := [eTemp, eBP, eFC, eFR, eSat].filterMap id
  if out.isEmpty then [] else joinSep (str " · ") out

/-! ## Suggestion Engine (`ICD10_RULES` / `deriveIcd10SuggestionsFromText`,
`src/App.jsx`) -/

structure Sug where
  code : Str
  title : Str
deriving DecidableEq

/-- `/\bdolor\s+de\s+cabeza\b/i`. -/
def trigDolorCabezaP : PM :=
  pmSeqs [pmWordB, pmLit "dolor", pmPlus isWSCh, pmLit "de", pmPlus isWSCh,
    pmLit "cabeza", pmWordB]

/-- `/\bcefalea\b/i`. -/
def trigCefaleaP : PM := pmSeqs [pmWordB, pmLit "cefalea", pmWordB]

/-- `/\bmigra(ñ|n)a\b/i`. -/
def trigMigranaP : PM := pmSeqs [pmWordB, pmLit "migra", pmCls "ñn", pmLit "a", pmWordB]

/-- `/\bdolor\s+de\s+cr[aá]neo\b/i`. -/
def trigDolorCraneoP : PM :=
  pmSeqs [pmWordB, pmLit "dolor", pmPlus isWSCh, pmLit "de", pmPlus isWSCh,
    pmLit "cr", pmCls "aá", pmLit "neo", pmWordB]

/-- `/\bdolor\s+de\s+garganta\b/i`. -/
def trigDolorGargantaP : PM :=
  pmSeqs [pmWordB, pmLit "dolor", pmPlus isWSCh, pmLit "de", pmPlus isWSCh,
    pmLit "garganta", pmWordB]

/-- `/\bfaringitis\b/i`. -/
def trigFaringitisP : PM := pmSeqs [pmWordB, pmLit "faringitis", pmWordB]

/-- `/\bamigdalitis\b/i`. -/
def trigAmigdalitisP : PM := pmSeqs [pmWordB, pmLit "amigdalitis", pmWordB]

/-- `/\bfiebre\b/i`. -/
def trigFiebreP : PM := pmSeqs [pmWordB, pmLit "fiebre", pmWordB]

/-- `/\btemperatura\s+alta\b/i`. -/
def trigTempAltaP : PM :=
  pmSeqs [pmWordB, pmLit "temperatura", pmPlus isWSCh, pmLit "alta", pmWordB]

/-- `rule.triggers.some((re) => re.test(t))` for the `headache` rule. -/
def ruleHeadacheFires (t : Str) : Bool :=
  reTest trigDolorCabezaP t || reTest trigCefaleaP t ||
  reTest trigMigranaP t || reTest trigDolorCraneoP t

/-- The `sorethroat` rule trigger. -/
def ruleSorethroatFires (t : Str) : Bool :=
  reTest trigDolorGargantaP t || reTest trigFaringitisP t || reTest trigAmigdalitisP t

/-- The `fever` rule trigger. -/
def ruleFeverFires (t : Str) : Bool :=
  reTest trigFiebreP t || reTest trigTempAltaP t

def sugsHeadache : List Sug :=
  [⟨str "R51", str "Cefalea"⟩,
   ⟨str "G43.9", str "Migraña, no especificada"⟩,
   ⟨str "G44.2", str "Cefalea tensional, no especificada"⟩]

def sugsSorethroat : List Sug :=
  [⟨str "J02.9", str "Faringitis aguda, no especificada"⟩,
   ⟨str "J03.90", str "Amigdalitis aguda, no especificada"⟩,
   ⟨str "J06.9", str "Infección aguda de vías respiratorias superiores, no especificada"⟩]

def sugsFever : List Sug :=
  [⟨str "R50.9", str "Fiebre, no especificada"⟩,
   ⟨str "B34.9", str "Infección viral, no especificada"⟩,
   ⟨str "A09", str "Gastroenteritis y colitis de origen infeccioso, no especificada"⟩]

/-- `ICD10_RULES` as (trigger test, suggestion list) in table order. -/
def ICD10_RULES : List ((Str → Bool) × List Sug) :=
  [(ruleHeadacheFires, sugsHeadache),
   (ruleSorethroatFires, sugsSorethroat),
   (ruleFeverFires, sugsFever)]

/-- All suggestions of the rule table in table order. -/
def allIcd10Suggestions : List Sug := sugsHeadache ++ sugsSorethroat ++ sugsFever

/-- The `hits` accumulation loop of `deriveIcd10SuggestionsFromText`. -/
def icd10HitsFor (t : Str) : List Sug :=
  ICD10_RULES.flatMap (fun rule => if rule.1 t then rule.2 else [])

/-- The `unique por code` filter with its `seen` set. -/
def dedupByCode : List Sug → List Str → List Sug
  | [], _ => []
  | s :: rest, seen =>
    if seen.contains s.code then dedupByCode rest seen
    else s :: dedupByCode rest (s.code :: seen)

/-- `deriveIcd10SuggestionsFromText` from `src/App.jsx`. -/
def deriveIcd10SuggestionsFromText (text : Str) : List Sug :=
  let t := safeTrim text
  if t.isEmpty then []
  else dedupByCode (icd10HitsFor t) []

/-! ## Spec-side selection rule (for the refinement claim about
`bestBucket`) -/

/-- Modelled from the spec's words (§4.4 Selection rule): "choose the key
with strictly the highest score; ties keep the first-seen maximum (stable,
order of iteration over the fixed key list). If every score is zero, return
the fallback key unchanged." -/
def specSelect (f : SectionKey → Nat) (fallbackKey : SectionKey) : SectionKey :=
  let m := keyOrder.foldl (fun acc k => max acc (f k)) 0
  if m = 0 then fallbackKey
  else (keyOrder.find? (fun k => f k = m)).getD fallbackKey

/-! ## Normal forms of `safeTrim` output -/

/-- Every whitespace character is a plain space. -/
def wsIsSpace (s : Str) : Prop := ∀ c ∈ s, isWSCh c = true → c = ' '

/-- No two adjacent whitespace characters. -/
def noWsRun (s : Str) : Prop :=
  List.Chain' (fun x y => isWSCh x = true → isWSCh y = false) s

def headOk (s : Str) : Bool :=
  match s.head? with
  | none => true
  | some c => !isWSCh c

def lastOk (s : Str) : Bool :=
  match s.getLast? with
  | none => true
  | some c => !isWSCh c

/-- The normal form enjoyed by every `safeTrim` result. -/
def fullNormal (s : Str) : Prop :=
  wsIsSpace s ∧ noWsRun s ∧ headOk s = true ∧ lastOk s = true

/-- Executable version of `noWsRun`. -/
def noWsRunB : Str → Bool
  | [] => true
  | [_] => true
  | c :: d :: rest => (!(isWSCh c && isWSCh d)) && noWsRunB (d :: rest)

/-- The character immediately before the junction of `pre ++ suf`, given the
character `pc` before `pre`. -/
def lastOpt (pc : Option Char) (pre : Str) : Option Char :=
  match pre.getLast? with
  | some c => some c
  | none => pc

/-- `pendienteMarker` split before the word `pendiente`. -/
def markerPre : Str := str " (dosis/frecuencia/duración: "

def markerSuf : Str := str "pendiente)"

theorem chain'_of_pre {R : Char → Char → Prop} {l' l : List Char}
    (h : List.Chain' R l) (hp : l' <+: l) : List.Chain' R l' := by
  obtain ⟨t, ht⟩ := hp
  rw [← ht] at h
  exact (List.chain'_append.mp h).1

theorem isPrefixOf_append_self : ∀ (n suf : Str), n.isPrefixOf (n ++ suf) = true := by
  intro n suf
  induction n with
  | nil => simp [List.isPrefixOf]
  | cons c n' ih => simp [List.isPrefixOf, ih]

theorem collapseWs_head_of_not_ws {d : Char} (rest : Str) (h : isWSCh d = false) :
    (collapseWs (d :: rest)).head? = some d := by
  cases rest <;> simp [collapseWs, h]

theorem collapseWs_wsIsSpace (s : Str) : wsIsSpace (collapseWs s) := by
  induction s with
  | nil => intro c hc; simp [collapseWs] at hc
  | cons c rest ih =>
    cases rest with
    | nil =>
      intro x hx
      by_cases h : isWSCh c = true
      · simp [collapseWs, h] at hx
        simp [hx]
      · simp [collapseWs, h] at hx
        intro hws
        subst hx
        exact absurd hws h
    | cons d rest' =>
      intro x hx
      by_cases h : isWSCh c = true
      · by_cases h' : isWSCh d = true
        · simp only [collapseWs, h, h', if_true] at hx
          exact ih x hx
        · rw [Bool.not_eq_true] at h'
          simp only [collapseWs, h, h', if_true, Bool.false_eq_true, if_false,
            List.mem_cons] at hx
          rcases hx with hx | hx
          · intro _; exact hx
          · exact ih x hx
      · rw [Bool.not_eq_true] at h
        simp only [collapseWs, h, Bool.false_eq_true, if_false, List.mem_cons] at hx
        rcases hx with hx | hx
        · intro hws; subst hx; rw [h] at hws; cases hws
        · exact ih x hx

theorem collapseWs_noWsRun (s : Str) : noWsRun (collapseWs s) := by
  induction s with
  | nil => simp [collapseWs, noWsRun]
  | cons c rest ih =>
    cases rest with
    | nil =>
      by_cases h : isWSCh c = true <;> simp [collapseWs, h, noWsRun]
    | cons d rest' =>
      by_cases h : isWSCh c = true
      · by_cases h' : isWSCh d = true
        · simpa [collapseWs, h, h'] using ih
        · rw [Bool.not_eq_true] at h'
          unfold noWsRun at ih ⊢
          simp only [collapseWs, h, h', if_true, Bool.false_eq_true, if_false]
          rw [List.chain'_cons']
          refine ⟨?_, ih⟩
          intro y hy
          rw [collapseWs_head_of_not_ws rest' h'] at hy
          simp only [Option.mem_def, Option.some.injEq] at hy
          intro _; rw [← hy]; exact h'
      · rw [Bool.not_eq_true] at h
        unfold noWsRun at ih ⊢
        simp only [collapseWs, h, Bool.false_eq_true, if_false]
        rw [List.chain'_cons']
        refine ⟨?_, ih⟩
        intro y _ hws
        rw [h] at hws; cases hws

theorem headOk_dropWhile (s : Str) : headOk (s.dropWhile (fun c => isWSCh c)) = true := by
  induction s with
  | nil => simp [headOk]
  | cons c rest ih =>
    by_cases h : isWSCh c = true
    · simpa [List.dropWhile, h] using ih
    · rw [Bool.not_eq_true] at h
      simp [List.dropWhile, h, headOk]

theorem trimEndWs_pre (s : Str) : trimEndWs s <+: s := by
  induction s with
  | nil => simp [trimEndWs]
  | cons c rest ih =>
    cases h : trimEndWs rest with
    | nil =>
      by_cases hc : isWSCh c = true <;> simp [trimEndWs, h, hc]
    | cons r rs =>
      simp only [trimEndWs, h]
      rw [h] at ih
      obtain ⟨t, ht⟩ := ih
      exact ⟨t, by rw [List.cons_append, ht]⟩

theorem lastOk_trimEndWs (s : Str) : lastOk (trimEndWs s) = true := by
  induction s with
  | nil => simp [trimEndWs, lastOk]
  | cons c rest ih =>
    cases h : trimEndWs rest with
    | nil =>
      by_cases hc : isWSCh c = true <;> simp [trimEndWs, h, hc, lastOk]
    | cons r rs =>
      rw [h] at ih
      simp only [trimEndWs, h]
      unfold lastOk at ih ⊢
      rwa [List.getLast?_cons_cons]

theorem trimEndWs_head (s : Str) :
    trimEndWs s = [] ∨ (trimEndWs s).head? = s.head? := by
  cases s with
  | nil => exact Or.inl rfl
  | cons c rest =>
    cases h : trimEndWs rest with
    | nil =>
      by_cases hc : isWSCh c = true
      · exact Or.inl (by simp [trimEndWs, h, hc])
      · exact Or.inr (by simp [trimEndWs, h, hc])
    | cons r rs => exact Or.inr (by simp [trimEndWs, h])

theorem fullNormal_safeTrim (s : Str) : fullNormal (safeTrim s) := by
  unfold safeTrim jsTrim
  have hdrop : (collapseWs s).dropWhile (fun c => isWSCh c) <:+ collapseWs s :=
    List.dropWhile_suffix _
  have htrim := trimEndWs_pre ((collapseWs s).dropWhile (fun c => isWSCh c))
  refine ⟨?_, ?_, ?_, lastOk_trimEndWs _⟩
  · intro c hc
    exact collapseWs_wsIsSpace s c (hdrop.subset (htrim.subset hc))
  · exact chain'_of_pre ((collapseWs_noWsRun s).suffix hdrop) htrim
  · rcases trimEndWs_head ((collapseWs s).dropWhile (fun c => isWSCh c)) with h | h
    · simp [h, headOk]
    · unfold headOk
      rw [h]
      have := headOk_dropWhile (collapseWs s)
      unfold headOk at this
      exact this

theorem collapseWs_eq_self {s : Str} (hsp : wsIsSpace s) (hrun : noWsRun s) :
    collapseWs s = s := by
  induction s with
  | nil => rfl
  | cons c rest ih =>
    cases rest with
    | nil =>
      by_cases h : isWSCh c = true
      · have := hsp c (by simp) h
        simp [collapseWs, h, this]
      · rw [Bool.not_eq_true] at h
        simp [collapseWs, h]
    | cons d rest' =>
      have htail : noWsRun (d :: rest') := hrun.tail
      have hsp' : wsIsSpace (d :: rest') := fun x hx => hsp x (List.mem_cons_of_mem c hx)
      by_cases h : isWSCh c = true
      · have hd : isWSCh d = false := by
          unfold noWsRun at hrun
          rw [List.chain'_cons] at hrun
          exact hrun.1 h
        have hc : c = ' ' := hsp c (by simp) h
        simp [collapseWs, h, hd, ih hsp' htail, hc]
      · rw [Bool.not_eq_true] at h
        simp [collapseWs, h, ih hsp' htail]

theorem dropWhile_ws_eq_self {s : Str} (h : headOk s = true) :
    s.dropWhile (fun c => isWSCh c) = s := by
  cases s with
  | nil => rfl
  | cons c rest =>
    unfold headOk at h
    simp only [List.head?_cons, Bool.not_eq_true'] at h
    simp [List.dropWhile, h]

theorem trimEndWs_eq_self {s : Str} (h : lastOk s = true) : trimEndWs s = s := by
  induction s with
  | nil => rfl
  | cons c rest ih =>
    cases rest with
    | nil =>
      unfold lastOk at h
      simp only [List.getLast?_singleton, Bool.not_eq_true'] at h
      simp [trimEndWs, h]
    | cons d rest' =>
      unfold lastOk at h ih
      rw [List.getLast?_cons_cons] at h
      rw [trimEndWs, ih h]

theorem safeTrim_eq_self {s : Str} (h : fullNormal s) : safeTrim s = s := by
  obtain ⟨hsp, hrun, hhead, hlast⟩ := h
  unfold safeTrim jsTrim
  rw [collapseWs_eq_self hsp hrun, dropWhile_ws_eq_self hhead, trimEndWs_eq_self hlast]

theorem safeTrim_idem (s : Str) : safeTrim (safeTrim s) = safeTrim s :=
  safeTrim_eq_self (fullNormal_safeTrim s)

/-! ## Whitespace-only inputs -/

theorem collapseWs_allWs {s : Str} (h : ∀ c ∈ s, isWSCh c = true) :
    ∀ c ∈ collapseWs s, isWSCh c = true := by
  induction s with
  | nil => intro c hc; simp [collapseWs] at hc
  | cons c rest ih =>
    cases rest with
    | nil =>
      intro x hx
      have := h c (by simp)
      simp [collapseWs, this] at hx
      simp [hx, isWSCh]
    | cons d rest' =>
      have hc := h c (by simp)
      have hrest : ∀ x ∈ d :: rest', isWSCh x = true :=
        fun x hx => h x (List.mem_cons_of_mem c hx)
      have hd := h d (by simp)
      intro x hx
      simp only [collapseWs, hc, hd, if_true] at hx
      exact ih hrest x hx

theorem dropWhile_all {s : Str} (h : ∀ c ∈ s, isWSCh c = true) :
    s.dropWhile (fun c => isWSCh c) = [] := by
  induction s with
  | nil => rfl
  | cons c rest ih =>
    have hc := h c (by simp)
    simp only [List.dropWhile, hc]
    exact ih (fun x hx => h x (List.mem_cons_of_mem c hx))

theorem jsTrim_allWs {s : Str} (h : ∀ c ∈ s, isWSCh c = true) : jsTrim s = [] := by
  unfold jsTrim
  rw [dropWhile_all h]
  rfl

theorem safeTrim_allWs {s : Str} (h : ∀ c ∈ s, isWSCh c = true) : safeTrim s = [] := by
  unfold safeTrim
  exact jsTrim_allWs (collapseWs_allWs h)

/-! ## Appending to a normal string -/

theorem head?_append_left {a : Str} (b : Str) (h : a ≠ []) : (a ++ b).head? = a.head? := by
  cases a with
  | nil => exact absurd rfl h
  | cons c rest => simp

theorem getLast?_append_right {b : Str} (a : Str) (h : b ≠ []) :
    (a ++ b).getLast? = b.getLast? := by
  induction a with
  | nil => simp
  | cons c a' ih =>
    have hne : a' ++ b ≠ [] := by
      intro hcon
      rcases List.append_eq_nil.mp hcon with ⟨_, h2⟩
      exact h h2
    cases hab : a' ++ b with
    | nil => exact absurd hab hne
    | cons d t =>
      rw [List.cons_append, hab, List.getLast?_cons_cons, ← hab]
      exact ih

theorem headOk_not_ws {b : Str} {y : Char} (hb : headOk b = true) (hy : b.head? = some y) :
    isWSCh y = false := by
  unfold headOk at hb
  rw [hy] at hb
  simpa using hb

theorem lastOk_not_ws {a : Str} {x : Char} (ha : lastOk a = true) (hx : a.getLast? = some x) :
    isWSCh x = false := by
  unfold lastOk at ha
  rw [hx] at ha
  simpa using ha

/-- Joining two nonempty normal strings with a single space stays normal. -/
theorem fullNormal_join_space {a b : Str} (ha : fullNormal a) (hb : fullNormal b)
    (hane : a ≠ []) (hbne : b ≠ []) : fullNormal (a ++ ' ' :: b) := by
  obtain ⟨hasp, harun, hahead, halast⟩ := ha
  obtain ⟨hbsp, hbrun, hbhead, hblast⟩ := hb
  refine ⟨?_, ?_, ?_, ?_⟩
  · intro c hc
    rcases List.mem_append.mp hc with hc | hc
    · exact hasp c hc
    · rcases List.mem_cons.mp hc with hc | hc
      · intro _; exact hc
      · exact hbsp c hc
  · unfold noWsRun at harun hbrun ⊢
    rw [List.chain'_append]
    refine ⟨harun, ?_, ?_⟩
    · rw [List.chain'_cons']
      refine ⟨?_, hbrun⟩
      intro y hy
      rw [Option.mem_def] at hy
      intro _
      exact headOk_not_ws hbhead hy
    · intro x hx y hy
      rw [Option.mem_def] at hx
      intro hws
      have := lastOk_not_ws halast hx
      rw [this] at hws
      cases hws
  · unfold headOk
    rw [head?_append_left _ hane]
    exact hahead
  · unfold lastOk
    rw [getLast?_append_right a (by simp)]
    cases b with
    | nil => exact absurd rfl hbne
    | cons d t =>
      rw [List.getLast?_cons_cons]
      unfold lastOk at hblast
      exact hblast

theorem noWsRun_iff (s : Str) : noWsRun s ↔ noWsRunB s = true := by
  induction s with
  | nil => simp [noWsRun, noWsRunB]
  | cons c rest ih =>
    cases rest with
    | nil => simp [noWsRun, noWsRunB]
    | cons d rest' =>
      unfold noWsRun at ih ⊢
      rw [List.chain'_cons, ih]
      rw [show noWsRunB (c :: d :: rest') =
        ((!(isWSCh c && isWSCh d)) && noWsRunB (d :: rest')) from rfl]
      cases hc : isWSCh c <;> cases hd : isWSCh d <;> simp [hc, hd]

/-- Appending the pendiente marker to a nonempty normal string stays
normal. -/
theorem fullNormal_append_marker {a : Str} (ha : fullNormal a) (hane : a ≠ []) :
    fullNormal (a ++ pendienteMarker) := by
  obtain ⟨hasp, harun, hahead, halast⟩ := ha
  have hmsp : wsIsSpace pendienteMarker := by unfold wsIsSpace; decide
  have hmrun : noWsRun pendienteMarker := (noWsRun_iff _).mpr (by decide)
  have hmlast : lastOk pendienteMarker = true := by decide
  refine ⟨?_, ?_, ?_, ?_⟩
  · intro c hc
    rcases List.mem_append.mp hc with hc | hc
    · exact hasp c hc
    · exact hmsp c hc
  · unfold noWsRun at harun hmrun ⊢
    rw [List.chain'_append]
    refine ⟨harun, hmrun, ?_⟩
    intro x hx y _
    rw [Option.mem_def] at hx
    intro hws
    have := lastOk_not_ws halast hx
    rw [this] at hws
    cases hws
  · unfold headOk
    rw [head?_append_left _ hane]
    exact hahead
  · unfold lastOk
    rw [getLast?_append_right a (by decide)]
    unfold lastOk at hmlast
    exact hmlast

theorem safeTrim_append_marker {a : Str} (ha : fullNormal a) (hane : a ≠ []) :
    safeTrim (a ++ pendienteMarker) = a ++ pendienteMarker :=
  safeTrim_eq_self (fullNormal_append_marker ha hane)

/-! ## Substring facts -/

theorem isSubstr_append (n pre suf : Str) : isSubstr n (pre ++ (n ++ suf)) = true := by
  induction pre with
  | nil =>
    cases hn : n ++ suf with
    | nil =>
      rcases List.append_eq_nil.mp hn with ⟨h1, _⟩
      subst h1
      decide
    | cons c rest =>
      have hpre : n.isPrefixOf (n ++ suf) = true := isPrefixOf_append_self n suf
      rw [hn] at hpre
      simp [isSubstr, hpre]
  | cons p pre' ih =>
    simp [isSubstr, ih]

theorem lowerStr_append (a b : Str) : lowerStr (a ++ b) = lowerStr a ++ lowerStr b := by
  simp [lowerStr]

theorem containsCI_refl (x : Str) : containsCI x x = true := by
  unfold containsCI
  have := isSubstr_append (lowerStr x) [] []
  simpa using this

theorem containsCI_append_right (a b : Str) : containsCI (a ++ ' ' :: b) b = true := by
  unfold containsCI
  have h1 : lowerStr (a ++ ' ' :: b) = (lowerStr a ++ [' ']) ++ (lowerStr b ++ []) := by
    simp [lowerStr]
    decide
  rw [h1]
  exact isSubstr_append (lowerStr b) (lowerStr a ++ [' ']) []

/-! ## Search in an appended string -/

theorem pmSearch_isSome_of_match (p : PM) :
    ∀ (pre : Str) (pc : Option Char) (suf : Str),
      p [] (lastOpt pc pre) suf ≠ [] → (pmSearch p pc (pre ++ suf)).isSome = true := by
  intro pre
  induction pre with
  | nil =>
    intro pc suf h
    have h' : p [] pc suf ≠ [] := by simpa [lastOpt] using h
    cases suf with
    | nil =>
      cases hres : p [] pc [] with
      | nil => exact absurd hres h'
      | cons r rs => simp [pmSearch, hres]
    | cons c rest =>
      cases hres : p [] pc (c :: rest) with
      | nil => exact absurd hres h'
      | cons r rs => simp [pmSearch, hres]
  | cons x pre' ih =>
    intro pc suf h
    have hlast : lastOpt (some x) pre' = lastOpt pc (x :: pre') := by
      unfold lastOpt
      cases pre' with
      | nil => simp
      | cons d t =>
        rw [List.getLast?_cons_cons]
        obtain ⟨y, hy⟩ := Option.isSome_iff_exists.mp
          (List.getLast?_isSome.mpr (List.cons_ne_nil d t))
        rw [hy]
    rw [List.cons_append]
    show (pmSearch p pc (x :: (pre' ++ suf))).isSome = true
    rw [pmSearch]
    cases hh : (p [] pc (x :: (pre' ++ suf))).head? with
    | some r => simp
    | none =>
      simp only []
      exact ih (some x) suf (by rw [hlast]; exact h)

theorem hasPendiente_append_marker (a : Str) :
    hasPendiente (a ++ pendienteMarker) = true := by
  unfold hasPendiente reTest reFind
  have hsplit : a ++ pendienteMarker = (a ++ markerPre) ++ markerSuf := by
    rw [List.append_assoc]
    rfl
  rw [hsplit]
  apply pmSearch_isSome_of_match
  have hlast : lastOpt none (a ++ markerPre) = some ' ' := by
    unfold lastOpt
    rw [getLast?_append_right a (by decide)]
    rfl
  rw [hlast]
  decide

/-! ## The selection loop of `bestBucket` -/

theorem foldl_max_init (f : SectionKey → Nat) :
    ∀ (l : List SectionKey) (s : Nat), s ≤ l.foldl (fun a k => max a (f k)) s := by
  intro l
  induction l with
  | nil => intro s; exact le_refl s
  | cons k ks ih =>
    intro s
    calc s ≤ max s (f k) := le_max_left _ _
    _ ≤ ks.foldl (fun a k => max a (f k)) (max s (f k)) := ih _

theorem foldl_max_le (f : SectionKey → Nat) :
    ∀ (l : List SectionKey) (s : Nat) (k : SectionKey), k ∈ l →
      f k ≤ l.foldl (fun a k => max a (f k)) s := by
  intro l
  induction l with
  | nil => intro s k hk; cases hk
  | cons k' ks ih =>
    intro s k hk
    rcases List.mem_cons.mp hk with h | h
    · subst h
      calc f k ≤ max s (f k) := le_max_right _ _
      _ ≤ ks.foldl (fun a j => max a (f j)) (max s (f k)) := foldl_max_init f ks _
    · exact ih _ k h

theorem selAux_snd (f : SectionKey → Nat) :
    ∀ (l : List SectionKey) (b : SectionKey) (s : Nat),
      (selAux f l b s).2 = l.foldl (fun a k => max a (f k)) s := by
  intro l
  induction l with
  | nil => intro b s; rfl
  | cons k ks ih =>
    intro b s
    by_cases hk : f k > s
    · rw [show selAux f (k :: ks) b s = selAux f ks k (f k) from by rw [selAux, if_pos hk]]
      rw [ih k (f k)]
      simp only [List.foldl_cons]
      rw [Nat.max_eq_right (le_of_lt hk)]
    · rw [show selAux f (k :: ks) b s = selAux f ks b s from by rw [selAux, if_neg hk]]
      rw [ih b s]
      simp only [List.foldl_cons]
      rw [Nat.max_eq_left (le_of_not_lt hk)]

theorem selAux_fst_stay (f : SectionKey → Nat) :
    ∀ (l : List SectionKey) (b : SectionKey) (s : Nat),
      (∀ k ∈ l, f k ≤ s) → (selAux f l b s).1 = b := by
  intro l
  induction l with
  | nil => intro b s _; rfl
  | cons k ks ih =>
    intro b s hall
    have hk : ¬ f k > s := not_lt.mpr (hall k (by simp))
    rw [show selAux f (k :: ks) b s = selAux f ks b s from by rw [selAux, if_neg hk]]
    exact ih b s (fun j hj => hall j (List.mem_cons_of_mem k hj))

theorem find?_congr_local {α : Type} (p q : α → Bool) :
    ∀ (l : List α), (∀ a ∈ l, p a = q a) → l.find? p = l.find? q := by
  intro l
  induction l with
  | nil => intro _; rfl
  | cons a l' ih =>
    intro hag
    have ha := hag a (by simp)
    cases hp : p a with
    | true =>
      rw [List.find?_cons_of_pos _ hp, List.find?_cons_of_pos _ (ha ▸ hp)]
    | false =>
      rw [List.find?_cons_of_neg _ (by simp [hp]), List.find?_cons_of_neg _ (by simp [← ha, hp])]
      exact ih (fun x hx => hag x (List.mem_cons_of_mem a hx))

theorem selAux_fst_find (f : SectionKey → Nat) :
    ∀ (l : List SectionKey) (b : SectionKey) (s : Nat),
      s < (selAux f l b s).2 →
      l.find? (fun k => decide ((selAux f l b s).2 ≤ f k)) = some (selAux f l b s).1 := by
  intro l
  induction l with
  | nil => intro b s hs; exact absurd hs (lt_irrefl s)
  | cons k ks ih =>
    intro b s hs
    by_cases hk : f k > s
    · rw [show selAux f (k :: ks) b s = selAux f ks k (f k) from by
        rw [selAux, if_pos hk]] at hs ⊢
      by_cases hMk : (selAux f ks k (f k)).2 ≤ f k
      · have hpk : (fun j => decide ((selAux f ks k (f k)).2 ≤ f j)) k = true :=
          decide_eq_true hMk
        rw [List.find?_cons_of_pos ks hpk]
        have hall : ∀ j ∈ ks, f j ≤ f k := by
          intro j hj
          have h1 : f j ≤ (selAux f ks k (f k)).2 := by
            rw [selAux_snd]
            exact foldl_max_le f ks (f k) j hj
          exact le_trans h1 hMk
        rw [selAux_fst_stay f ks k (f k) hall]
      · have hpk : ¬ ((fun j => decide ((selAux f ks k (f k)).2 ≤ f j)) k = true) := by
          simp only [decide_eq_true_eq]
          exact hMk
        rw [List.find?_cons_of_neg ks hpk]
        exact ih k (f k) (lt_of_not_le hMk)
    · rw [show selAux f (k :: ks) b s = selAux f ks b s from by
        rw [selAux, if_neg hk]] at hs ⊢
      have hkM : ¬ ((selAux f ks b s).2 ≤ f k) := by
        intro hle
        exact absurd (lt_of_lt_of_le hs hle) (not_lt.mpr (le_of_not_lt hk))
      have hpk : ¬ ((fun j => decide ((selAux f ks b s).2 ≤ f j)) k = true) := by
        simp only [decide_eq_true_eq]
        exact hkM
      rw [List.find?_cons_of_neg ks hpk]
      exact ih b s hs

theorem Sections.get_set (s : Sections) (k : SectionKey) (v : Str) (k' : SectionKey) :
    (s.set k v).get k' = if k' = k then v else s.get k' := by
  cases k <;> cases k' <;> simp [Sections.set, Sections.get]

/-- The selection loop agrees with the spec's selection rule for every score
assignment. -/
theorem selLoop_eq_specSelect (f : SectionKey → Nat) (fb : SectionKey) :
    (if (selAux f keyOrder fb 0).2 > 0 then (selAux f keyOrder fb 0).1 else fb) =
      specSelect f fb := by
  have hsnd := selAux_snd f keyOrder fb 0
  by_cases h0 : keyOrder.foldl (fun a k => max a (f k)) 0 = 0
  · unfold specSelect
    rw [if_pos h0, hsnd, h0]
    simp
  · have hpos : 0 < keyOrder.foldl (fun a k => max a (f k)) 0 := Nat.pos_of_ne_zero h0
    have hlt : 0 < (selAux f keyOrder fb 0).2 := by rw [hsnd]; exact hpos
    have hfind := selAux_fst_find f keyOrder fb 0 hlt
    unfold specSelect
    rw [if_neg h0, if_pos hlt]
    have hag : ∀ k ∈ keyOrder,
        (fun j => decide (f j = keyOrder.foldl (fun a x => max a (f x)) 0)) k =
        (fun j => decide ((selAux f keyOrder fb 0).2 ≤ f j)) k := by
      intro k hk
      have hle : f k ≤ keyOrder.foldl (fun a x => max a (f x)) 0 :=
        foldl_max_le f keyOrder 0 k hk
      by_cases he : f k = keyOrder.foldl (fun a x => max a (f x)) 0
      · simp only [decide_eq_true_eq, he, hsnd]
        simp
      · have hnle : ¬ ((selAux f keyOrder fb 0).2 ≤ f k) := by
          rw [hsnd]
          exact fun hle2 => he (le_antisymm hle hle2)
        simp only [decide_eq_true_eq]
        simp [he, hnle]
    rw [find?_congr_local _ _ keyOrder hag, hfind]
    rfl

/-- `bestBucket` computes the spec's selection rule over its computed
scores. -/
theorem bestBucket_eq_specSelect (seg : Str) (fb : SectionKey) :
    bestBucket seg fb = specSelect (scoreOf seg) fb := by
  unfold bestBucket
  exact selLoop_eq_specSelect (scoreOf seg) fb

theorem jsTrim_eq_self {s : Str} (h : fullNormal s) : jsTrim s = s := by
  obtain ⟨_, _, hhead, hlast⟩ := h
  unfold jsTrim
  rw [dropWhile_ws_eq_self hhead, trimEndWs_eq_self hlast]

theorem fullNormal_of_trim_fixed {s : Str} (h : safeTrim s = s) : fullNormal s := by
  rw [← h]
  exact fullNormal_safeTrim s

theorem isSubstr_nil_needle (hay : Str) : isSubstr [] hay = true := by
  cases hay <;> simp [isSubstr, List.isPrefixOf]

theorem lowerStr_nil_iff (b : Str) : lowerStr b = [] ↔ b = [] := by
  unfold lowerStr
  simp

/-- Claim C1: for every segment and fallback key, the classifier
`bestBucket` returns the key with strictly the highest score, ties resolved
in favour of the first-seen maximum in the fixed key iteration order
(`keyOrder`), and returns the fallback key unchanged whenever every score
is zero — i.e. it coincides with the spec's selection rule `specSelect`
applied to the code's scores. -/
theorem claimC1_bestBucket_selection :
    ∀ (seg : Str) (fb : SectionKey), bestBucket seg fb = specSelect (scoreOf seg) fb :=
  bestBucket_eq_specSelect

/-- Claim C2: an empty or whitespace-only delta is a no-op: the handler's
sections path returns the current sections unchanged, and the client-side
`smartDistributeText` returns the input state unchanged (with `did =
false`). -/
theorem claimC2_whitespace_noop :
    (∀ (d : Str) (cur : Sections), (∀ c ∈ d, isWSCh c = true) →
      handlerSections d cur = cur) ∧
    (∀ (d : Str) (prev : Sections) (fb : Option SectionKey), (∀ c ∈ d, isWSCh c = true) →
      smartDistributeText prev d fb = (prev, false)) := by
  constructor
  · intro d cur h
    unfold handlerSections
    rw [jsTrim_allWs h]
    rfl
  · intro d prev fb h
    unfold smartDistributeText splitSegments
    rw [safeTrim_allWs h]
    rfl

/-- Witness for C2 at the concrete whitespace-only delta `"  "`. -/
theorem claimC2_whitespace_noop_witness :
    handlerSections (str "  ") emptySections = emptySections ∧
    smartDistributeText emptySections (str "  ") none = (emptySections, false) :=
  ⟨claimC2_whitespace_noop.1 (str "  ") emptySections (by decide),
   claimC2_whitespace_noop.2 (str "  ") emptySections none (by decide)⟩

theorem mergeText_eq (a b : Str) (ha : safeTrim a = a) (hb : safeTrim b = b) :
    mergeText a b = if containsCI a b = true then a else jsTrim (a ++ ' ' :: b) := by
  simp only [mergeText]
  rw [ha, hb]
  by_cases hbe : b.isEmpty
  · rw [if_pos hbe]
    have hb0 : b = [] := List.isEmpty_iff.mp hbe
    have hct : containsCI a b = true := by
      unfold containsCI
      rw [hb0]
      exact isSubstr_nil_needle (lowerStr a)
    rw [if_pos hct]
  · rw [if_neg hbe]
    have hb0 : b ≠ [] := fun h => hbe (by rw [h]; rfl)
    by_cases hae : a.isEmpty
    · rw [if_pos hae]
      have ha0 : a = [] := List.isEmpty_iff.mp hae
      have hcf : containsCI a b = false := by
        unfold containsCI
        rw [ha0]
        cases hlb : lowerStr b with
        | nil => exact absurd ((lowerStr_nil_iff b).mp hlb) hb0
        | cons c rest => simp [isSubstr, List.isPrefixOf]
      rw [hcf]
      have hnb : fullNormal b := fullNormal_of_trim_fixed hb
      have hdw : List.dropWhile (fun c => isWSCh c) (' ' :: b) = b := by
        rw [show List.dropWhile (fun c => isWSCh c) (' ' :: b) =
          List.dropWhile (fun c => isWSCh c) b from by simp [List.dropWhile, isWSCh]]
        exact dropWhile_ws_eq_self hnb.2.2.1
      simp only [Bool.false_eq_true, if_false, ha0, List.nil_append]
      unfold jsTrim
      rw [hdw, trimEndWs_eq_self hnb.2.2.2]
    · rw [if_neg hae]

theorem mergeText_trim (a b : Str) : mergeText a b = mergeText (safeTrim a) (safeTrim b) := by
  simp only [mergeText, safeTrim_idem]

theorem mergeText_result_normal (a b : Str) : safeTrim (mergeText a b) = mergeText a b := by
  simp only [mergeText]
  by_cases hbe : (safeTrim b).isEmpty
  · rw [if_pos hbe]
    exact safeTrim_idem a
  · rw [if_neg hbe]
    by_cases hae : (safeTrim a).isEmpty
    · rw [if_pos hae]
      exact safeTrim_idem b
    · rw [if_neg hae]
      by_cases hc : containsCI (safeTrim a) (safeTrim b) = true
      · rw [if_pos hc]
        exact safeTrim_idem a
      · rw [if_neg hc]
        have hna : fullNormal (safeTrim a) := fullNormal_safeTrim a
        have hnb : fullNormal (safeTrim b) := fullNormal_safeTrim b
        have hane : safeTrim a ≠ [] := fun h => hae (by rw [h]; rfl)
        have hbne : safeTrim b ≠ [] := fun h => hbe (by rw [h]; rfl)
        have hj : fullNormal (safeTrim a ++ ' ' :: safeTrim b) :=
          fullNormal_join_space hna hnb hane hbne
        rw [jsTrim_eq_self hj]
        exact safeTrim_eq_self hj

theorem mergeText_idem_norm (a b : Str) (ha : safeTrim a = a) (hb : safeTrim b = b) :
    mergeText (mergeText a b) b = mergeText a b := by
  by_cases hbe : b = []
  · subst hbe
    have h1 : mergeText a [] = a := by
      rw [mergeText_eq a [] ha (by rfl)]
      rw [if_pos (by unfold containsCI; exact isSubstr_nil_needle (lowerStr a))]
    rw [h1, h1]
  · by_cases hae : a = []
    · subst hae
      have h1 : mergeText [] b = b := by
        simp only [mergeText]
        rw [hb]
        rw [if_neg (fun h => hbe (List.isEmpty_iff.mp h))]
        rw [if_pos (by rfl)]
      rw [h1]
      rw [mergeText_eq b b hb hb, if_pos (containsCI_refl b)]
    · by_cases hc : containsCI a b = true
      · have h1 : mergeText a b = a := by rw [mergeText_eq a b ha hb, if_pos hc]
        rw [h1, h1]
      · have hna : fullNormal a := fullNormal_of_trim_fixed ha
        have hnb : fullNormal b := fullNormal_of_trim_fixed hb
        have hj : fullNormal (a ++ ' ' :: b) := fullNormal_join_space hna hnb hae hbe
        have h1 : mergeText a b = a ++ ' ' :: b := by
          rw [mergeText_eq a b ha hb, if_neg hc]
          exact jsTrim_eq_self hj
        rw [h1]
        rw [mergeText_eq (a ++ ' ' :: b) b (safeTrim_eq_self hj) hb]
        rw [if_pos (containsCI_append_right a b)]

/-- Claim C4: merging the same text twice is the same as merging it once
(duplicate suppression), and for normalized inputs the merge is: keep the
existing text when it already contains the new text case-insensitively,
otherwise concatenate with a single separating space and trim. -/
theorem claimC4_mergeText_idempotent :
    (∀ a b : Str, mergeText (mergeText a b) b = mergeText a b) ∧
    (∀ a b : Str, safeTrim a = a → safeTrim b = b →
      mergeText a b = if containsCI a b = true then a else jsTrim (a ++ ' ' :: b)) := by
  constructor
  · intro a b
    rw [mergeText_trim a b]
    rw [mergeText_trim (mergeText (safeTrim a) (safeTrim b)) b]
    rw [mergeText_result_normal (safeTrim a) (safeTrim b)]
    exact mergeText_idem_norm (safeTrim a) (safeTrim b) (safeTrim_idem a) (safeTrim_idem b)
  · exact mergeText_eq

/-- Witness for C4 at `a = "hola"`, `b = "mundo"`. -/
theorem claimC4_mergeText_idempotent_witness :
    mergeText (mergeText (str "hola") (str "mundo")) (str "mundo") =
      mergeText (str "hola") (str "mundo") ∧
    mergeText (str "hola") (str "mundo") =
      (if containsCI (str "hola") (str "mundo") = true then str "hola"
       else jsTrim (str "hola" ++ ' ' :: str "mundo")) :=
  ⟨claimC4_mergeText_idempotent.1 (str "hola") (str "mundo"),
   claimC4_mergeText_idempotent.2 (str "hola") (str "mundo") (by decide) (by decide)⟩

/-- Claim C10: after `analyzeDelta` on a non-empty delta, a non-empty
prescription either carries a dosage/frequency/duration pattern or contains
the word `pendiente` (the handler appends the pending marker itself). -/
theorem claimC10_pendiente_invariant :
    ∀ (delta : Str) (cur : Sections), jsTrim delta ≠ [] →
      safeTrim (analyzeDelta delta cur).prescripcion ≠ [] →
      hasDoseRx (safeTrim (analyzeDelta delta cur).prescripcion) = true ∨
      hasPendiente (safeTrim (analyzeDelta delta cur).prescripcion) = true := by
  intro delta cur _
  unfold analyzeDelta pendienteFix
  set m := (splitSegments delta).foldl analyzeStep cur with hm
  by_cases h0 : (safeTrim m.prescripcion).isEmpty
  · rw [if_pos h0]
    intro hrx
    exact absurd (List.isEmpty_iff.mp h0) hrx
  · rw [if_neg h0]
    by_cases h1 : (!hasDoseRx (safeTrim m.prescripcion) &&
        !hasPendiente (safeTrim m.prescripcion)) = true
    · rw [if_pos h1]
      intro _
      have hrx_norm : fullNormal (safeTrim m.prescripcion) := fullNormal_safeTrim _
      have hrx_ne : safeTrim m.prescripcion ≠ [] := fun h => h0 (by rw [h]; rfl)
      have heq : safeTrim (safeTrim m.prescripcion ++ pendienteMarker)
          = safeTrim m.prescripcion ++ pendienteMarker :=
        safeTrim_append_marker hrx_norm hrx_ne
      right
      show hasPendiente
        (safeTrim (safeTrim (safeTrim m.prescripcion ++ pendienteMarker))) = true
      rw [heq, heq]
      exact hasPendiente_append_marker _
    · rw [if_neg h1]
      intro _
      by_cases hd : hasDoseRx (safeTrim m.prescripcion) = true
      · exact Or.inl hd
      · by_cases hp : hasPendiente (safeTrim m.prescripcion) = true
        · exact Or.inr hp
        · exfalso
          apply h1
          rw [Bool.not_eq_true] at hd hp
          rw [hd, hp]
          rfl

/-- Witness for C10: the delta `"amoxicilina"` over the empty state yields a
prescription that satisfies the invariant (the marker is appended). -/
theorem claimC10_pendiente_invariant_witness :
    hasDoseRx (safeTrim (analyzeDelta (str "amoxicilina") emptySections).prescripcion) = true ∨
    hasPendiente (safeTrim (analyzeDelta (str "amoxicilina") emptySections).prescripcion) = true :=
  claimC10_pendiente_invariant (str "amoxicilina") emptySections (by decide) (by decide)

/-- Claim C8: with a non-empty prescription lacking a dosage pattern and a
non-empty diagnosis, `buildQuestions` includes the dosage-clarification
prompt and not the final-diagnosis prompt. -/
theorem claimC8_buildQuestions :
    ∀ (s : Sections),
      safeTrim s.prescripcion ≠ [] →
      hasDoseRx (safeTrim s.prescripcion) = false →
      safeTrim s.diagnostico ≠ [] →
      qDosis ∈ buildQuestions s ∧ qDiagnostico ∉ buildQuestions s := by
  intro s h1 h2 h3
  have hBne : (safeTrim s.prescripcion).isEmpty = false := by
    cases hte : (safeTrim s.prescripcion).isEmpty
    · rfl
    · exact absurd (List.isEmpty_iff.mp hte) h1
  have hCne : (safeTrim s.diagnostico).isEmpty = false := by
    cases hte : (safeTrim s.diagnostico).isEmpty
    · rfl
    · exact absurd (List.isEmpty_iff.mp hte) h3
  simp only [buildQuestions]
  rw [h2, hBne, hCne]
  by_cases hA : (!(safeTrim s.motivo).isEmpty && (safeTrim s.signos).isEmpty) = true
  · by_cases hD : (!(safeTrim s.motivo).isEmpty &&
        (isSubstr (str "deshidrat") (lowerStr (safeTrim s.motivo)) ||
         isSubstr (str "vómit") (lowerStr (safeTrim s.motivo)) ||
         isSubstr (str "vomit") (lowerStr (safeTrim s.motivo)))) = true
    · rw [hA, hD]
      constructor
      · decide
      · decide
    · rw [hA, Bool.not_eq_true] at *
      rw [hD]
      constructor
      · decide
      · decide
  · rw [Bool.not_eq_true] at hA
    by_cases hD : (!(safeTrim s.motivo).isEmpty &&
        (isSubstr (str "deshidrat") (lowerStr (safeTrim s.motivo)) ||
         isSubstr (str "vómit") (lowerStr (safeTrim s.motivo)) ||
         isSubstr (str "vomit") (lowerStr (safeTrim s.motivo)))) = true
    · rw [hA, hD]
      constructor
      · decide
      · decide
    · rw [Bool.not_eq_true] at hD
      rw [hA, hD]
      constructor
      · decide
      · decide

/-- Witness for C8 at a state with prescription `"paracetamol"` and
diagnosis `"gripe"`. -/
theorem claimC8_buildQuestions_witness :
    qDosis ∈ buildQuestions { emptySections with
      prescripcion := str "paracetamol", diagnostico := str "gripe" } ∧
    qDiagnostico ∉ buildQuestions { emptySections with
      prescripcion := str "paracetamol", diagnostico := str "gripe" } :=
  claimC8_buildQuestions _ (by decide) (by decide) (by decide)

/-- Claim C9 (as stated): on `"PA 120/80 FC 78"` the vitals extractor
returns `"PA: 120/80 · FC: 78"` — the two values appear as separate tagged
entries joined by the separator — and whenever none of the five vitals
regexes matches, the extractor returns the empty string. -/
theorem claimC9_extractVitals :
    extractVitalsFromText (str "PA 120/80 FC 78") = str "PA: 120/80 · FC: 78" ∧
    (∀ t : Str, reFind mTempP t = none → reFind mBP1P t = none → reFind mBP2P t = none →
      reFind mFCP t = none → reFind mFRP t = none → reFind mSatP t = none →
      extractVitalsFromText t = []) := by
  constructor
  · decide
  · intro t h1 h2 h3 h4 h5 h6
    simp only [extractVitalsFromText]
    rw [h1, h2, h3, h4, h5, h6]
    rfl

/-- Witness for C9: the no-match branch at the concrete input `"hola"`. -/
theorem claimC9_extractVitals_witness :
    extractVitalsFromText (str "PA 120/80 FC 78") = str "PA: 120/80 · FC: 78" ∧
    extractVitalsFromText (str "hola") = [] :=
  ⟨claimC9_extractVitals.1,
   claimC9_extractVitals.2 (str "hola") (by decide) (by decide) (by decide)
     (by decide) (by decide) (by decide)⟩

/-! ## Deduplication by code -/

theorem contains_false_not_mem {l : List Str} {x : Str} (h : l.contains x = false) :
    x ∉ l := by
  intro hx
  have ht : l.contains x = true := List.elem_iff.mpr hx
  rw [ht] at h
  cases h

theorem dedupByCode_sound :
    ∀ (l : List Sug) (seen : List Str),
      ((dedupByCode l seen).map Sug.code).Nodup ∧
      ∀ c ∈ (dedupByCode l seen).map Sug.code, c ∉ seen := by
  intro l
  induction l with
  | nil => intro seen; exact ⟨List.nodup_nil, by simp [dedupByCode]⟩
  | cons s rest ih =>
    intro seen
    cases hs : seen.contains s.code with
    | true =>
      rw [show dedupByCode (s :: rest) seen = dedupByCode rest seen from by
        rw [dedupByCode, if_pos hs]]
      exact ih seen
    | false =>
      rw [show dedupByCode (s :: rest) seen = s :: dedupByCode rest (s.code :: seen) from by
        rw [dedupByCode, if_neg (by rw [hs]; exact Bool.false_ne_true)]]
      obtain ⟨ihn, ihs⟩ := ih (s.code :: seen)
      constructor
      · rw [List.map_cons, List.nodup_cons]
        refine ⟨?_, ihn⟩
        intro hmem
        exact (ihs s.code hmem) (by simp)
      · intro c hc
        rw [List.map_cons] at hc
        rcases List.mem_cons.mp hc with hc | hc
        · subst hc
          exact contains_false_not_mem hs
        · intro hcs
          exact (ihs c hc) (List.mem_cons_of_mem _ hcs)

theorem dedupByCode_sublist :
    ∀ (l : List Sug) (seen : List Str), List.Sublist (dedupByCode l seen) l := by
  intro l
  induction l with
  | nil => intro seen; simp [dedupByCode]
  | cons s rest ih =>
    intro seen
    cases hs : seen.contains s.code with
    | true =>
      rw [show dedupByCode (s :: rest) seen = dedupByCode rest seen from by
        rw [dedupByCode, if_pos hs]]
      exact (ih seen).cons s
    | false =>
      rw [show dedupByCode (s :: rest) seen = s :: dedupByCode rest (s.code :: seen) from by
        rw [dedupByCode, if_neg (by rw [hs]; exact Bool.false_ne_true)]]
      exact (ih (s.code :: seen)).cons₂ s

theorem icd10HitsFor_shape (t : Str) :
    icd10HitsFor t =
      (if ruleHeadacheFires t then sugsHeadache else []) ++
      ((if ruleSorethroatFires t then sugsSorethroat else []) ++
       ((if ruleFeverFires t then sugsFever else []) ++ [])) := by
  simp [icd10HitsFor, ICD10_RULES]

theorem icd10HitsFor_sublist (t : Str) :
    List.Sublist (icd10HitsFor t) allIcd10Suggestions := by
  rw [icd10HitsFor_shape]
  unfold allIcd10Suggestions
  rw [List.append_assoc, List.append_nil]
  refine List.Sublist.append ?_ (List.Sublist.append ?_ ?_) <;> split <;>
    first
      | exact List.Sublist.refl _
      | exact List.nil_sublist _

/-- Counterexample to C6 as stated: `"tiene dolor de cabezas"` contains
`"dolor de cabeza"` as a substring, yet the suggestion list is empty (the
trigger requires a word boundary after `cabeza`). -/
theorem claimC6_counterexample :
    isSubstr (str "dolor de cabeza") (str "tiene dolor de cabezas") = true ∧
    deriveIcd10SuggestionsFromText (str "tiene dolor de cabezas") = [] := by
  constructor
  · decide
  · decide

/-- Claim C6 (amended): the suggestion list never repeats a code, and when
the headache trigger `\bdolor\s+de\s+cabeza\b` actually matches the trimmed
text, the list is non-empty and includes code `R51`. -/
theorem claimC6_suggestions :
    ∀ (text : Str),
      ((deriveIcd10SuggestionsFromText text).map Sug.code).Nodup ∧
      (reTest trigDolorCabezaP (safeTrim text) = true →
        (⟨str "R51", str "Cefalea"⟩ : Sug) ∈ deriveIcd10SuggestionsFromText text ∧
        deriveIcd10SuggestionsFromText text ≠ []) := by
  intro text
  refine ⟨?_, ?_⟩
  · by_cases h0 : (safeTrim text).isEmpty
    · simp only [deriveIcd10SuggestionsFromText]
      rw [if_pos h0]
      simp
    · simp only [deriveIcd10SuggestionsFromText]
      rw [if_neg h0]
      exact (dedupByCode_sound _ []).1
  · intro hyp
    by_cases h0 : (safeTrim text).isEmpty
    · exfalso
      rw [List.isEmpty_iff.mp h0] at hyp
      exact absurd hyp (by decide)
    · have hfire : ruleHeadacheFires (safeTrim text) = true := by
        unfold ruleHeadacheFires
        rw [hyp]
        rfl
      have hres : deriveIcd10SuggestionsFromText text =
          (⟨str "R51", str "Cefalea"⟩ : Sug) ::
            dedupByCode ((⟨str "G43.9", str "Migraña, no especificada"⟩ : Sug) ::
              (⟨str "G44.2", str "Cefalea tensional, no especificada"⟩ : Sug) ::
              ((if ruleSorethroatFires (safeTrim text) = true then sugsSorethroat else []) ++
               ((if ruleFeverFires (safeTrim text) = true then sugsFever else []) ++ [])))
            [str "R51"] := by
        simp only [deriveIcd10SuggestionsFromText]
        rw [if_neg h0, icd10HitsFor_shape, hfire]
        rfl
      rw [hres]
      exact ⟨List.mem_cons_self _ _, List.cons_ne_nil _ _⟩

/-- Witness for C6 (amended) at the concrete text `"dolor de cabeza"`. -/
theorem claimC6_suggestions_witness :
    ((deriveIcd10SuggestionsFromText (str "dolor de cabeza")).map Sug.code).Nodup ∧
    ((⟨str "R51", str "Cefalea"⟩ : Sug) ∈ deriveIcd10SuggestionsFromText (str "dolor de cabeza") ∧
     deriveIcd10SuggestionsFromText (str "dolor de cabeza") ≠ []) :=
  ⟨(claimC6_suggestions (str "dolor de cabeza")).1,
   (claimC6_suggestions (str "dolor de cabeza")).2 (by decide)⟩

/-- Counterexample to C7 as stated: a text firing all three rules yields 9
suggestions, exceeding the claimed cap of 5–6 (the code applies no cap). -/
theorem claimC7_counterexample :
    (deriveIcd10SuggestionsFromText (str "dolor de cabeza dolor de garganta fiebre")).length
      = 9 := by
  decide

/-- Claim C7 (amended): the suggestion list is a sublist of the rule table's
suggestions in table order (deduplicated, insertion order = rule table
order) and is bounded only by the table's total size 9; no 5–6 cap is
applied. -/
theorem claimC7_suggestion_bound :
    ∀ (text : Str),
      (deriveIcd10SuggestionsFromText text).length ≤ 9 ∧
      List.Sublist (deriveIcd10SuggestionsFromText text) allIcd10Suggestions := by
  intro text
  by_cases h0 : (safeTrim text).isEmpty
  · simp only [deriveIcd10SuggestionsFromText]
    rw [if_pos h0]
    exact ⟨by simp, List.nil_sublist _⟩
  · simp only [deriveIcd10SuggestionsFromText]
    rw [if_neg h0]
    have hsub : List.Sublist (dedupByCode (icd10HitsFor (safeTrim text)) [])
        allIcd10Suggestions :=
      (dedupByCode_sublist _ _).trans (icd10HitsFor_sublist _)
    exact ⟨le_trans hsub.length_le (by decide), hsub⟩

/-- Counterexample to C5 as stated: on the spec's own input the
Mixed-Content Splitter returns ONE segment, not two — the accented
`"Diagnóstico"` never matches the splitter's ASCII `"diagnos"` test. -/
theorem claimC5_counterexample :
    (splitIfMixedRxDx
      (str "Tratamiento: amoxicilina 500 mg cada 8 horas por 7 dias. Diagnóstico: faringitis aguda.")).length
      = 1 := by
  decide

/-- Claim C5 (amended): the two segments are produced by the Segmenter
(`splitSegments`); the Mixed-Content Splitter leaves each unchanged; the
Section Classifier routes the first to `prescripcion`, while the second
carries an explicit `Diagnóstico:` header and is routed by the Header
Detector; the final state holds the expected texts. -/
theorem claimC5_mixed_routing :
    splitSegments
        (str "Tratamiento: amoxicilina 500 mg cada 8 horas por 7 dias. Diagnóstico: faringitis aguda.")
      = [str "Tratamiento: amoxicilina 500 mg cada 8 horas por 7 dias",
         str "Diagnóstico: faringitis aguda"] ∧
    splitIfMixedRxDx (str "Tratamiento: amoxicilina 500 mg cada 8 horas por 7 dias")
      = [str "Tratamiento: amoxicilina 500 mg cada 8 horas por 7 dias"] ∧
    splitIfMixedRxDx (str "Diagnóstico: faringitis aguda")
      = [str "Diagnóstico: faringitis aguda"] ∧
    detectSectionHeader (str "Tratamiento: amoxicilina 500 mg cada 8 horas por 7 dias")
      = (none, str "Tratamiento: amoxicilina 500 mg cada 8 horas por 7 dias") ∧
    bestBucket (str "Tratamiento: amoxicilina 500 mg cada 8 horas por 7 dias")
        SectionKey.impresion = SectionKey.prescripcion ∧
    detectSectionHeader (str "Diagnóstico: faringitis aguda")
      = (some SectionKey.diagnostico, str "faringitis aguda") ∧
    (analyzeDelta
        (str "Tratamiento: amoxicilina 500 mg cada 8 horas por 7 dias. Diagnóstico: faringitis aguda.")
        emptySections).prescripcion
      = str "Tratamiento: amoxicilina 500 mg cada 8 horas por 7 dias" ∧
    (analyzeDelta
        (str "Tratamiento: amoxicilina 500 mg cada 8 horas por 7 dias. Diagnóstico: faringitis aguda.")
        emptySections).diagnostico
      = str "faringitis aguda" := by
  refine ⟨by decide, by decide, by decide, by decide, by decide, by decide, ?_, ?_⟩
  · decide
  · decide

theorem detectAux_trimmed :
    ∀ (tbl : List (SectionKey × PM)) (t : Str) (k : SectionKey) (c : Str),
      detectSectionHeaderAux tbl t = some (k, c) → safeTrim c = c := by
  intro tbl
  induction tbl with
  | nil => intro t k c h; cases h
  | cons e rest ih =>
    intro t k c h
    obtain ⟨k', p⟩ := e
    unfold detectSectionHeaderAux at h
    cases hr : anchoredRest p t with
    | some r =>
      rw [hr] at h
      simp only [Option.some.injEq, Prod.mk.injEq] at h
      rw [← h.2]
      exact safeTrim_idem r
    | none =>
      rw [hr] at h
      exact ih t k c h

theorem detectSectionHeader_trimmed (t : Str) (h : Option SectionKey) (c : Str) :
    detectSectionHeader t = (h, c) → safeTrim c = c := by
  unfold detectSectionHeader
  by_cases h0 : (safeTrim t).isEmpty
  · rw [if_pos h0]
    intro heq
    rw [show c = ([] : Str) from (Prod.mk.injEq _ _ _ _ ▸ heq).2.symm]
    rfl
  · rw [if_neg h0]
    cases haux : detectSectionHeaderAux headerTable (safeTrim t) with
    | some kc =>
      obtain ⟨k0, c0⟩ := kc
      intro heq
      simp only [Prod.mk.injEq] at heq
      rw [← heq.2]
      exact detectAux_trimmed headerTable (safeTrim t) k0 c0 haux
    | none =>
      intro heq
      simp only [Prod.mk.injEq] at heq
      rw [← heq.2]
      exact safeTrim_idem t

/-- Claim C3 (amended): for a single-segment delta bearing an explicit
section header, `smartDistributeText` appends exactly the label-stripped,
re-trimmed remainder to the header's key and leaves every other key
unchanged; `analyzeDelta` does the same and then applies only its
prescription post-pass (`pendienteFix`), which touches no key other than
`prescripcion`. -/
theorem claimC3_header_routing :
    ∀ (delta seg cleaned : Str) (k : SectionKey) (cur : Sections) (fb : Option SectionKey),
      splitSegments delta = [seg] →
      detectSectionHeader seg = (some k, cleaned) →
      (∀ k', (smartDistributeText cur delta fb).1.get k' =
        if k' = k ∧ cleaned ≠ [] then safeTrim (cur.get k ++ ' ' :: cleaned)
        else cur.get k') ∧
      (smartDistributeText cur delta fb).2 = true ∧
      analyzeDelta delta cur = pendienteFix (mergeAppend cur k cleaned) ∧
      (∀ k', (mergeAppend cur k cleaned).get k' =
        if k' = k ∧ cleaned ≠ [] then safeTrim (cur.get k ++ ' ' :: cleaned)
        else cur.get k') ∧
      (∀ (s : Sections) (k' : SectionKey), k' ≠ SectionKey.prescripcion →
        (pendienteFix s).get k' = s.get k') := by
  intro delta seg cleaned k cur fb hsplit hdet
  have htrimmed : safeTrim cleaned = cleaned :=
    detectSectionHeader_trimmed seg (some k) cleaned hdet
  have hsmart : smartDistributeText cur delta fb =
      (if cleaned.isEmpty then cur
       else cur.set k (safeTrim (cur.get k ++ ' ' :: cleaned)), true) := by
    unfold smartDistributeText
    rw [hsplit]
    simp only [List.foldl]
    rw [hdet]
  have hget : ∀ k', (if cleaned.isEmpty then cur
      else cur.set k (safeTrim (cur.get k ++ ' ' :: cleaned))).get k' =
      (if k' = k ∧ cleaned ≠ [] then safeTrim (cur.get k ++ ' ' :: cleaned)
       else cur.get k') := by
    intro k'
    by_cases hcl : cleaned.isEmpty
    · rw [if_pos hcl]
      rw [if_neg (fun hand => hand.2 (List.isEmpty_iff.mp hcl))]
    · rw [if_neg hcl]
      rw [Sections.get_set]
      by_cases hk : k' = k
      · rw [if_pos hk, if_pos ⟨hk, fun hn => hcl (by rw [hn]; rfl)⟩]
      · rw [if_neg hk, if_neg (fun hand => hk hand.1)]
  refine ⟨?_, ?_, ?_, ?_, ?_⟩
  · intro k'
    rw [hsmart]
    exact hget k'
  · rw [hsmart]
  · unfold analyzeDelta
    rw [hsplit]
    simp only [List.foldl]
    unfold analyzeStep
    rw [hdet]
  · intro k'
    unfold mergeAppend
    rw [htrimmed]
    exact hget k'
  · intro s k' hk
    unfold pendienteFix
    have hset : ∀ (v : Str),
        ({ s with prescripcion := v } : Sections) = s.set SectionKey.prescripcion v :=
      fun v => rfl
    by_cases h0 : (safeTrim s.prescripcion).isEmpty
    · rw [if_pos h0]
    · rw [if_neg h0]
      by_cases h1 : (!hasDoseRx (safeTrim s.prescripcion) &&
          !hasPendiente (safeTrim s.prescripcion)) = true
      · rw [if_pos h1, hset, Sections.get_set, if_neg hk]
      · rw [if_neg h1]

/-- Witness for C3 (amended) at the delta `"Diagnostico: neumonia"` over the
empty state. -/
theorem claimC3_header_routing_witness :
    splitSegments (str "Diagnostico: neumonia") = [str "Diagnostico: neumonia"] ∧
    detectSectionHeader (str "Diagnostico: neumonia")
      = (some SectionKey.diagnostico, str "neumonia") ∧
    analyzeDelta (str "Diagnostico: neumonia") emptySections
      = pendienteFix (mergeAppend emptySections SectionKey.diagnostico (str "neumonia")) ∧
    (smartDistributeText emptySections (str "Diagnostico: neumonia") none).2 = true :=
  ⟨by decide, by decide,
   (claimC3_header_routing (str "Diagnostico: neumonia") (str "Diagnostico: neumonia")
     (str "neumonia") SectionKey.diagnostico emptySections none
     (by decide) (by decide)).2.2.1,
   (claimC3_header_routing (str "Diagnostico: neumonia") (str "Diagnostico: neumonia")
     (str "neumonia") SectionKey.diagnostico emptySections none
     (by decide) (by decide)).2.1⟩

/-- Counterexample to C3 as stated: the delta `"Diagnostico: neumonia"` is a
single segment with a diagnosis header, yet `analyzeDelta` also mutates the
prescription key of the current state (it appends the pendiente marker). -/
theorem claimC3_counterexample :
    splitSegments (str "Diagnostico: neumonia") = [str "Diagnostico: neumonia"] ∧
    detectSectionHeader (str "Diagnostico: neumonia")
      = (some SectionKey.diagnostico, str "neumonia") ∧
    (analyzeDelta (str "Diagnostico: neumonia")
        { emptySections with prescripcion := str "amoxicilina" }).prescripcion
      ≠ ({ emptySections with prescripcion := str "amoxicilina" } : Sections).prescripcion := by
  refine ⟨by decide, by decide, ?_⟩
  decide
